import Mathlib

/-
Verification of the conversation-state manager of the TWILIO-CHATBOT
repository (file chatbot/conversation.py, class ConversationManager).

Shallow embedding conventions:
  * datetime values and time.time() readings are modelled as natural
    numbers counting whole seconds; every operation receives the current
    time as an explicit `now` argument (the code calls datetime.now() or
    time.time() at the corresponding spot).  The two now() readings taken
    inside one operation are identified, as the spec does.
  * the Python dict self.conversations is modelled as an association list
    in insertion order; Python dicts have unique keys, which here is the
    predicate keysNodup, carried as a hypothesis where it matters.
  * isoformat timestamps stored in metadata dicts are modelled by the
    underlying numeric time (isoformat is injective).
  * total_seconds() results are modelled as integers.
  * the try/except wrappers never fire in the embedded fragment (the
    embedded operations are total), so add_message always reports True,
    matching the Python control flow on the non-exceptional path.
-/

namespace Chatbot

/-- One message of a conversation (dataclass Message). -/
structure Message where
  role : String
  content : String
  timestamp : Nat
  metadata : List (String × String)
deriving Repr, DecidableEq

/-- The store-managed metadata dict of a Conversation.  The code only ever
writes the keys last_activity, message_count, end_time and duration, so the
dict is modelled by one optional field per key. -/
structure ConvMeta where
  last_activity : Option Nat := none
  message_count : Option Nat := none
  end_time : Option Nat := none
  duration : Option Int := none
deriving Repr, DecidableEq

/-- One conversation session (dataclass Conversation). -/
structure Conversation where
  call_sid : String
  from_number : String
  to_number : String
  start_time : Nat
  messages : List Message
  is_active : Bool
  metadata : ConvMeta
deriving Repr, DecidableEq

/-- The dict self.conversations, in insertion order. -/
abbrev Store := List (String × Conversation)

/-- Dict lookup self.conversations[call_sid] (also the membership test
call_sid in self.conversations): the entry stored under the key. -/
def lookup : Store → String → Option Conversation
  | [], _ => none
  | e :: s, sid => if e.1 = sid then some e.2 else lookup s sid

/-- In-place mutation of the Conversation object stored under a key; a
Python dict keeps the entry at its position. -/
def updateEntry : Store → String → Conversation → Store
  | [], _, _ => []
  | e :: s, sid, c => (if e.1 = sid then (e.1, c) else e) :: updateEntry s sid c

/-- Dict deletion del self.conversations[call_sid]. -/
def eraseKey (s : Store) (sid : String) : Store :=
  s.filter (fun e => !(e.1 == sid))

/-- Python dicts cannot hold a key twice; association lists can, so this
invariant records that the model list is an honest dict image. -/
def keysNodup (s : Store) : Prop := (s.map (·.1)).Nodup

instance : DecidablePred keysNodup := fun s => List.nodupDecidable _

/-- The ConversationManager state (fields of __init__). -/
structure ConversationManager where
  conversations : Store
  max_conversations : Nat
  cleanup_interval : Nat
  last_cleanup : Nat
deriving Repr, DecidableEq

/-- ConversationManager.__init__(max_conversations, cleanup_interval),
called at time now (self.last_cleanup = time.time()). -/
def ConversationManager.make (maxConv cleanupInt now : Nat) : ConversationManager :=
  { conversations := []
    max_conversations := maxConv
    cleanup_interval := cleanupInt
    last_cleanup := now }

/-- The age-based sweep of _cleanup_old_conversations: collect every entry
with start_time < now - 24h that is not active, then delete those keys.
Over a dict this is exactly a filter.  The strict comparison
start_time < now - 86400 over datetimes is rendered over naturals as
start_time + 86400 < now, which agrees with the integer reading. -/
def ageSweep (s : Store) (now : Nat) : Store :=
  s.filter (fun e => !(decide (e.2.start_time + 86400 < now) && !e.2.is_active))

/-- Keys of the dict comprehension of inactive conversations taken before
the capacity loop runs. -/
def inactiveKeys (s : Store) : List String :=
  (s.filter (fun e => !e.2.is_active)).map (·.1)

/-- The for-loop of the capacity-based sweep: walk the entries sorted by
start_time and delete a key while it is in the inactive snapshot and the
store is still over the cap. -/
def capLoop (maxConv : Nat) (inact : List String) :
    List (String × Conversation) → Store → Store
  | [], cur => cur
  | e :: rest, cur =>
    if inact.contains e.1 && decide (maxConv < cur.length) then
      capLoop maxConv inact rest (eraseKey cur e.1)
    else
      capLoop maxConv inact rest cur

/-- Sort key lambda x: x[1].start_time.  Python sorted() is stable, as is
insertionSort with a non-strict comparison. -/
def byStart (a b : String × Conversation) : Prop :=
  a.2.start_time ≤ b.2.start_time

instance : DecidableRel byStart := fun a b => Nat.decLe _ _

/-- The capacity-based part of _cleanup_old_conversations (the
if len(self.conversations) > self.max_conversations block). -/
def capacityPass (s : Store) (maxConv : Nat) : Store :=
  if maxConv < s.length then
    capLoop maxConv (inactiveKeys s) (s.insertionSort byStart) s
  else s

/-- ConversationManager._cleanup_old_conversations, at current time now.
Throttle first, then the age sweep, then the capacity sweep, then stamp
last_cleanup. -/
def ConversationManager.cleanup_old_conversations
    (m : ConversationManager) (now : Nat) : ConversationManager :=
  if now - m.last_cleanup < m.cleanup_interval then m
  else
    { m with
      conversations := capacityPass (ageSweep m.conversations now) m.max_conversations
      last_cleanup := now }

/-- The Conversation constructed by get_conversation for an unknown key. -/
def freshConversation (sid : String) (fromN toN : Option String) (now : Nat) :
    Conversation :=
  { call_sid := sid
    from_number := fromN.getD "unknown"
    to_number := toN.getD "unknown"
    start_time := now
    messages := []
    is_active := true
    metadata := {} }

/-- ConversationManager.get_conversation: run the opportunistic eviction
pass, then return the stored conversation or create and insert a fresh
one.  Returns the conversation together with the updated manager state. -/
def ConversationManager.get_conversation (m : ConversationManager) (now : Nat)
    (sid : String) (fromN toN : Option String) :
    Conversation × ConversationManager :=
  match lookup (m.cleanup_old_conversations now).conversations sid with
  | none =>
    (freshConversation sid fromN toN now,
     { m.cleanup_old_conversations now with
       conversations := (m.cleanup_old_conversations now).conversations ++
         [(sid, freshConversation sid fromN toN now)] })
  | some c => (c, m.cleanup_old_conversations now)

/-- ConversationManager.add_message: resolve or create the conversation,
append a Message stamped with the current time, update the last_activity
and message_count metadata, report True. -/
def ConversationManager.add_message (m : ConversationManager) (now : Nat)
    (sid role content : String) (md : Option (List (String × String))) :
    Bool × ConversationManager :=
  let r := m.get_conversation now sid none none
  let c := r.1
  let msg : Message :=
    { role := role, content := content, timestamp := now, metadata := md.getD [] }
  let c' : Conversation :=
    { c with
      messages := c.messages ++ [msg]
      metadata :=
        { c.metadata with
          last_activity := some now
          message_count := some (c.messages.length + 1) } }
  (true, { r.2 with conversations := updateEntry r.2.conversations sid c' })

/-- The dictionary view of one message built by get_history and
export_conversation. -/
structure HistoryEntry where
  role : String
  content : String
  timestamp : Nat
  metadata : List (String × String)
deriving Repr, DecidableEq

/-- Conversion of a Message to its dictionary view. -/
def toHistoryEntry (msg : Message) : HistoryEntry :=
  { role := msg.role, content := msg.content
    timestamp := msg.timestamp, metadata := msg.metadata }

/-- Python slice messages[-n:] for n > 0: the last n elements. -/
def takeLast (l : List α) (n : Nat) : List α := l.drop (l.length - n)

/-- ConversationManager.get_history: resolve or create the conversation,
take messages[-limit:] when limit > 0 and the whole list otherwise, and
render each message as a dictionary. -/
def ConversationManager.get_history (m : ConversationManager) (now : Nat)
    (sid : String) (limit : Int) : List HistoryEntry × ConversationManager :=
  let r := m.get_conversation now sid none none
  let recent :=
    if 0 < limit then takeLast r.1.messages limit.toNat else r.1.messages
  (recent.map toHistoryEntry, r.2)

/-- ConversationManager.end_conversation: when the key is present, clear
is_active and stamp end_time and duration into the metadata, returning
True; otherwise return False and leave the store alone. -/
def ConversationManager.end_conversation (m : ConversationManager) (now : Nat)
    (sid : String) : Bool × ConversationManager :=
  match lookup m.conversations sid with
  | some c =>
    let c' : Conversation :=
      { c with
        is_active := false
        metadata :=
          { c.metadata with
            end_time := some now
            duration := some ((now : Int) - (c.start_time : Int)) } }
    (true, { m with conversations := updateEntry m.conversations sid c' })
  | none => (false, m)

/-- The statistics dictionary built by get_conversation_stats. -/
structure Stats where
  call_sid : String
  from_number : String
  to_number : String
  start_time : Nat
  is_active : Bool
  total_messages : Nat
  user_messages : Nat
  assistant_messages : Nat
  duration_seconds : Int
  metadata : ConvMeta
deriving Repr, DecidableEq

/-- The pure computation of get_conversation_stats on a resolved
conversation: list comprehensions filtering on exact role equality. -/
def statsOf (now : Nat) (sid : String) (c : Conversation) : Stats :=
  { call_sid := sid
    from_number := c.from_number
    to_number := c.to_number
    start_time := c.start_time
    is_active := c.is_active
    total_messages := c.messages.length
    user_messages := (c.messages.filter (fun msg => msg.role == "user")).length
    assistant_messages :=
      (c.messages.filter (fun msg => msg.role == "assistant")).length
    duration_seconds := (now : Int) - (c.start_time : Int)
    metadata := c.metadata }

/-- ConversationManager.get_conversation_stats: resolve or create the
conversation, then build the statistics dictionary. -/
def ConversationManager.get_conversation_stats (m : ConversationManager)
    (now : Nat) (sid : String) : Stats × ConversationManager :=
  let r := m.get_conversation now sid none none
  (statsOf now sid r.1, r.2)

/-- Python str.lower applied characterwise (the contents handled by the
program are ASCII, where the two agree). -/
def lowerChars (s : String) : List Char := s.toList.map Char.toLower

/-- Matching of a needle against the front of a haystack. -/
def leadMatch : List Char → List Char → Bool
  | [], _ => true
  | _ :: _, [] => false
  | a :: as, b :: bs => a == b && leadMatch as bs

/-- Python substring containment needle in haystack on character lists. -/
def subSeq (needle : List Char) : List Char → Bool
  | [] => needle.isEmpty
  | b :: bs => leadMatch needle (b :: bs) || subSeq needle bs

/-- The test query.lower() in message.content.lower() of
search_conversations. -/
def containsCI (query content : String) : Bool :=
  subSeq (lowerChars query) (lowerChars content)

/-- One search result: the stats dictionary with the extra
matching_message key. -/
structure SearchResult where
  stats : Stats
  matching_message : String
deriving Repr, DecidableEq

/-- The pure scan that search_conversations performs when the eviction
pass is throttled: for each conversation in insertion order, find the
first message whose content contains the query case-insensitively (the
inner for with break); after each conversation, stop if
len(results) >= limit.  The count argument is len(results) so far.  This
is the specification form; search_conversations itself threads the store
through its embedded stats calls, and the two agree in the throttled
steady state (theorem searchLoopSt_throttled). -/
def searchLoop (now : Nat) (query : String) (limit : Int) :
    List (String × Conversation) → Nat → List SearchResult
  | [], _ => []
  | e :: rest, count =>
    match e.2.messages.find? (fun msg => containsCI query msg.content) with
    | some msg =>
      let r : SearchResult :=
        { stats := statsOf now e.1 e.2, matching_message := msg.content }
      if limit ≤ ((count : Int) + 1) then [r]
      else r :: searchLoop now query limit rest (count + 1)
    | none =>
      if limit ≤ (count : Int) then []
      else searchLoop now query limit rest count

/-- The double loop of search_conversations with its store effects: on
each match the code calls self.get_conversation_stats(conversation.call_sid),
which runs the opportunistic eviction pass and can itself evict and
re-create conversations, so the manager state is threaded through the
scan.  The scan walks the entry sequence observed at call time; Python
iterates the live dict, and when an embedded stats call changes the dict
size mid-iteration CPython aborts the for loop with a RuntimeError that
the except clause turns into an empty result, so the live iteration only
completes (and only agrees with this scan) when the eviction pass is
throttled and the store is never mutated; the search theorems carry that
throttle hypothesis. -/
def searchLoopSt (now : Nat) (query : String) (limit : Int) :
    List (String × Conversation) → Nat → ConversationManager →
    List SearchResult × ConversationManager
  | [], _, m => ([], m)
  | e :: rest, count, m =>
    match e.2.messages.find? (fun msg => containsCI query msg.content) with
    | some msg =>
      let rs := m.get_conversation_stats now e.2.call_sid
      let r : SearchResult :=
        { stats := rs.1, matching_message := msg.content }
      if limit ≤ ((count : Int) + 1) then ([r], rs.2)
      else
        (r :: (searchLoopSt now query limit rest (count + 1) rs.2).1,
         (searchLoopSt now query limit rest (count + 1) rs.2).2)
    | none =>
      if limit ≤ (count : Int) then ([], m)
      else searchLoopSt now query limit rest count m

/-- ConversationManager.search_conversations: the scan above started on
the stored entries with an empty result list, returning the results
together with the manager state left behind by the embedded stats
calls. -/
def ConversationManager.search_conversations (m : ConversationManager)
    (now : Nat) (query : String) (limit : Int) :
    List SearchResult × ConversationManager :=
  searchLoopSt now query limit m.conversations 0 m

/-- The export dictionary built by export_conversation. -/
structure ExportData where
  call_sid : String
  from_number : String
  to_number : String
  start_time : Nat
  is_active : Bool
  metadata : ConvMeta
  messages : List HistoryEntry
deriving Repr, DecidableEq

/-- ConversationManager.export_conversation: resolve or create the
conversation and render every field. -/
def ConversationManager.export_conversation (m : ConversationManager)
    (now : Nat) (sid : String) : ExportData × ConversationManager :=
  let r := m.get_conversation now sid none none
  ({ call_sid := r.1.call_sid
     from_number := r.1.from_number
     to_number := r.1.to_number
     start_time := r.1.start_time
     is_active := r.1.is_active
     metadata := r.1.metadata
     messages := r.1.messages.map toHistoryEntry }, r.2)

/-- Sort key for get_all_conversations: start_time descending, stable. -/
def byStartDesc (a b : String × Conversation) : Prop :=
  b.2.start_time ≤ a.2.start_time

instance : DecidableRel byStartDesc := fun a b => Nat.decLe _ _

/-- The for loop of get_all_conversations: one
self.get_conversation_stats(conversation.call_sid) call per listed
conversation, each running the opportunistic eviction pass, so the
manager state is threaded through.  Unlike search_conversations, the
Python loop iterates the fresh list built by sorted(), not the live
dict, so mid-loop mutation raises nothing. -/
def getAllLoop (now : Nat) :
    List (String × Conversation) → ConversationManager →
    List Stats × ConversationManager
  | [], m => ([], m)
  | e :: rest, m =>
    (((m.get_conversation_stats now e.2.call_sid).1 ::
        (getAllLoop now rest (m.get_conversation_stats now e.2.call_sid).2).1),
     (getAllLoop now rest (m.get_conversation_stats now e.2.call_sid).2).2)

/-- ConversationManager.get_all_conversations: conversations sorted by
start_time newest first, truncated, then rendered as stats through the
state-threading loop above. -/
def ConversationManager.get_all_conversations (m : ConversationManager)
    (now : Nat) (limit : Nat) : List Stats × ConversationManager :=
  getAllLoop now ((m.conversations.insertionSort byStartDesc).take limit) m

/-- The updated Conversation object produced by one add_message call on a
resolved conversation. -/
def appendedConversation (c : Conversation) (now : Nat) (role content : String)
    (md : Option (List (String × String))) : Conversation :=
  { c with
    messages := c.messages ++
      [{ role := role, content := content, timestamp := now,
         metadata := md.getD [] }]
    metadata := { c.metadata with
      last_activity := some now
      message_count := some (c.messages.length + 1) } }

/-- One append request: timestamp, role, content (metadata omitted). -/
def mkMessage (a : Nat × String × String) : Message :=
  { role := a.2.1, content := a.2.2, timestamp := a.1, metadata := [] }

/-- A sequence of add_message calls to one call_sid, each with its own
current time. -/
def applyAdds (sid : String) :
    List (Nat × String × String) → ConversationManager → ConversationManager
  | [], m => m
  | a :: rest, m => applyAdds sid rest (m.add_message a.1 sid a.2.1 a.2.2 none).2

/-- Concrete conversation used in the claim C2 witness. -/
def convC2 : Conversation :=
  { call_sid := "CA1", from_number := "+15550001", to_number := "+15550002"
    start_time := 1
    messages := [{ role := "user", content := "Hello", timestamp := 1,
                   metadata := [] }]
    is_active := true, metadata := {} }

/-- Concrete manager used in the claim C2 witness. -/
def mgrC2 : ConversationManager :=
  { conversations := [("CA1", convC2)], max_conversations := 1000
    cleanup_interval := 3600, last_cleanup := 0 }

/-- Concrete manager used in the claim C4 witness. -/
def mgrC4 : ConversationManager :=
  { conversations :=
      [("CA1", { call_sid := "CA1", from_number := "+15550001"
                 to_number := "+15550002", start_time := 2, messages := []
                 is_active := true, metadata := {} })]
    max_conversations := 1000, cleanup_interval := 3600, last_cleanup := 0 }

/-- Concrete manager used in the claim C9 witness: CA1 was already ended at
time 5 (end_time 5, duration 3, inactive). -/
def mgrC9 : ConversationManager :=
  { conversations :=
      [("CA1", { call_sid := "CA1", from_number := "unknown"
                 to_number := "unknown", start_time := 2, messages := []
                 is_active := false
                 metadata := { last_activity := none, message_count := none
                               end_time := some 5, duration := some 3 } })]
    max_conversations := 1000, cleanup_interval := 3600, last_cleanup := 0 }

/-- Conversations of the claim C3 scenario: two inactive and one active
one, in a store capped at two conversations. -/
def convC3a : Conversation :=
  { call_sid := "a", from_number := "unknown", to_number := "unknown"
    start_time := 10, messages := [], is_active := false, metadata := {} }

def convC3b : Conversation :=
  { call_sid := "b", from_number := "unknown", to_number := "unknown"
    start_time := 20, messages := [], is_active := false, metadata := {} }

def convC3c : Conversation :=
  { call_sid := "c", from_number := "unknown", to_number := "unknown"
    start_time := 30, messages := [], is_active := true, metadata := {} }

def mgrC3 : ConversationManager :=
  { conversations := [("a", convC3a), ("b", convC3b), ("c", convC3c)]
    max_conversations := 2, cleanup_interval := 3600, last_cleanup := 0 }

/-- Conversations of the claim C6 scenario, at current time 100000: one
inactive conversation started 25 hours earlier and one started 23 hours
earlier. -/
def convC6old : Conversation :=
  { call_sid := "old", from_number := "unknown", to_number := "unknown"
    start_time := 10000, messages := [], is_active := false, metadata := {} }

def convC6young : Conversation :=
  { call_sid := "young", from_number := "unknown", to_number := "unknown"
    start_time := 17200, messages := [], is_active := false, metadata := {} }

def storeC6 : Store := [("old", convC6old), ("young", convC6young)]

/-- The claim C8 counterexample trace: a manager capped at one
conversation, two active conversations inserted, then an un-throttled
eviction pass. -/
def mgrC8 : ConversationManager :=
  ((((ConversationManager.make 1 3600 0).get_conversation 1 "a" none
    none).2.get_conversation 2 "b" none none).2.cleanup_old_conversations 4000)

/-- Manager used for the claim C8 witness: the same two-active-conversation
store before its eviction pass. -/
def mgrC8pre : ConversationManager :=
  (((ConversationManager.make 1 3600 0).get_conversation 1 "a" none
    none).2.get_conversation 2 "b" none none).2

/-- Conversation used in the claim C10 witness: one user message, one
assistant message, and one message with the unchecked role system. -/
def convC10 : Conversation :=
  { call_sid := "CA1", from_number := "unknown", to_number := "unknown"
    start_time := 1
    messages :=
      [{ role := "user", content := "Hello", timestamp := 1, metadata := [] },
       { role := "assistant", content := "Hi!", timestamp := 2, metadata := [] },
       { role := "system", content := "note", timestamp := 3, metadata := [] }]
    is_active := true, metadata := {} }

def mgrC10 : ConversationManager :=
  { conversations := [("CA1", convC10)], max_conversations := 1000
    cleanup_interval := 3600, last_cleanup := 0 }

/-- Manager used in the claim C7 counterexample: one stored conversation
whose single message contains the query. -/
def mgrC7x : ConversationManager :=
  { conversations :=
      [("c1", { call_sid := "c1", from_number := "unknown"
                to_number := "unknown", start_time := 1
                messages := [{ role := "user", content := "well hello there"
                               timestamp := 1, metadata := [] }]
                is_active := true, metadata := {} })]
    max_conversations := 1000, cleanup_interval := 3600, last_cleanup := 0 }

/-- One conversation of the claim C7 witness store. -/
def convC7 (sid : String) (t : Nat) : Conversation :=
  { call_sid := sid, from_number := "unknown", to_number := "unknown"
    start_time := t
    messages := [{ role := "user", content := "say hello world"
                   timestamp := t, metadata := [] }]
    is_active := true, metadata := {} }

/-- Manager used in the claim C7 witness: five stored conversations, each
with a message matching the query hello. -/
def mgrC7 : ConversationManager :=
  { conversations :=
      [("c1", convC7 "c1" 1), ("c2", convC7 "c2" 2), ("c3", convC7 "c3" 3),
       ("c4", convC7 "c4" 4), ("c5", convC7 "c5" 5)]
    max_conversations := 1000, cleanup_interval := 3600, last_cleanup := 0 }

/-- One public store operation, as a relation between the manager state
before and after the call.  Every operation that resolves a call_sid
runs through get_conversation, so every constructor carries the full
state effect of the source operation, including the eviction passes and
conversation re-creations performed by the stats calls embedded in
search_conversations and get_all_conversations. -/
inductive Step : ConversationManager → ConversationManager → Prop
  | get_conv (m : ConversationManager) (now : Nat) (sid : String)
      (fromN toN : Option String) :
      Step m (m.get_conversation now sid fromN toN).2
  | add_msg (m : ConversationManager) (now : Nat) (sid role content : String)
      (md : Option (List (String × String))) :
      Step m (m.add_message now sid role content md).2
  | get_hist (m : ConversationManager) (now : Nat) (sid : String)
      (limit : Int) : Step m (m.get_history now sid limit).2
  | end_conv (m : ConversationManager) (now : Nat) (sid : String) :
      Step m (m.end_conversation now sid).2
  | get_stats (m : ConversationManager) (now : Nat) (sid : String) :
      Step m (m.get_conversation_stats now sid).2
  | export_conv (m : ConversationManager) (now : Nat) (sid : String) :
      Step m (m.export_conversation now sid).2
  | get_all (m : ConversationManager) (now limit : Nat) :
      Step m (m.get_all_conversations now limit).2
  | search (m : ConversationManager) (now : Nat) (query : String)
      (limit : Int) : Step m (m.search_conversations now query limit).2
  | sweep (m : ConversationManager) (now : Nat) :
      Step m (m.cleanup_old_conversations now)

/-- The key state of an inactive conversation along a chain of
get_conversation calls: whatever the store holds under the call_sid is
either still inactive or a freshly re-created conversation (no end_time,
no duration, no messages).  This is the invariant that the stats chains
inside search_conversations and get_all_conversations preserve. -/
def InactiveOrFresh (s : Store) (sid : String) : Prop :=
  ∀ c'', lookup s sid = some c'' →
    c''.is_active = false ∨
      (c''.metadata.end_time = none ∧ c''.metadata.duration = none ∧
       c''.messages = [])

/-- States of the claim C5 counterexample trace: create x at time 1, end
it at time 2, then touch it again through get_conversation at time 90002,
more than 24 hours later and past the throttle interval. -/
def mgrC5a : ConversationManager :=
  ((ConversationManager.make 1000 3600 0).get_conversation 1 "x" none none).2

def mgrC5b : ConversationManager := (mgrC5a.end_conversation 2 "x").2

def mgrC5c : ConversationManager :=
  (mgrC5b.get_conversation 90002 "x" none none).2

/-- Conversation and manager of the claim C5 witness: an already-ended
conversation that an end_conversation step touches again. -/
def convC5w : Conversation :=
  { call_sid := "x", from_number := "unknown", to_number := "unknown"
    start_time := 2, messages := [], is_active := false
    metadata := { last_activity := none, message_count := none
                  end_time := some 5, duration := some 3 } }

def mgrC5w : ConversationManager :=
  { conversations := [("x", convC5w)], max_conversations := 1000
    cleanup_interval := 3600, last_cleanup := 0 }

/-- The conversation stored under x after the witness step. -/
def convC5w2 : Conversation :=
  { call_sid := "x", from_number := "unknown", to_number := "unknown"
    start_time := 2, messages := [], is_active := false
    metadata := { last_activity := none, message_count := none
                  end_time := some 9, duration := some 7 } }

/-! Basic lemmas about the dict model. -/

theorem lookup_eq_none_iff {s : Store} {sid : String} :
    lookup s sid = none ↔ ∀ e ∈ s, e.1 ≠ sid := by
  induction s with
  | nil => simp [lookup]
  | cons e s ih =>
    by_cases h : e.1 = sid
    · simp [lookup, h]
    · simp [lookup, h, ih]

theorem lookup_mem {s : Store} {sid : String} {c : Conversation}
    (h : lookup s sid = some c) : (sid, c) ∈ s := by
  induction s with
  | nil => simp [lookup] at h
  | cons e s ih =>
    by_cases he : e.1 = sid
    · simp only [lookup, if_pos he, Option.some.injEq] at h
      have : (sid, c) = e := by
        calc (sid, c) = (e.1, e.2) := by rw [he, h]
          _ = e := rfl
      rw [this]
      exact List.mem_cons_self e s
    · simp only [lookup, if_neg he] at h
      exact List.mem_cons_of_mem e (ih h)

theorem keysNodup_eq_of_mem {s : Store} {sid : String} {c c' : Conversation}
    (hn : keysNodup s) (h : (sid, c) ∈ s) (h' : (sid, c') ∈ s) : c = c' := by
  have hinj := List.inj_on_of_nodup_map hn h h' rfl
  exact congrArg Prod.snd hinj

theorem lookup_isSome_of_mem {s : Store} {sid : String} {c : Conversation}
    (h : (sid, c) ∈ s) : lookup s sid ≠ none := by
  intro hnone
  exact (lookup_eq_none_iff.mp hnone) _ h rfl

theorem lookup_of_mem {s : Store} {sid : String} {c : Conversation}
    (hn : keysNodup s) (h : (sid, c) ∈ s) : lookup s sid = some c := by
  cases hl : lookup s sid with
  | none => exact absurd hl (lookup_isSome_of_mem h)
  | some c₂ =>
    have := keysNodup_eq_of_mem hn (lookup_mem hl) h
    rw [this]

theorem lookup_append_single {s : Store} {sid : String} (c : Conversation)
    (h : lookup s sid = none) : lookup (s ++ [(sid, c)]) sid = some c := by
  induction s with
  | nil => simp [lookup]
  | cons e s ih =>
    rw [lookup_eq_none_iff] at h
    have he : e.1 ≠ sid := h e (List.mem_cons_self e s)
    have hs : lookup s sid = none := by
      rw [lookup_eq_none_iff]
      exact fun x hx => h x (List.mem_cons_of_mem e hx)
    simp only [List.cons_append, lookup, if_neg he]
    exact ih hs

theorem lookup_updateEntry_self {s : Store} {sid : String} {c' : Conversation} :
    lookup (updateEntry s sid c') sid = (lookup s sid).map (fun _ => c') := by
  induction s with
  | nil => simp [lookup, updateEntry]
  | cons e s ih =>
    by_cases h : e.1 = sid
    · simp [lookup, updateEntry, if_pos h, h]
    · simp only [updateEntry, if_neg h, lookup]
      exact ih

theorem lookup_updateEntry_other {s : Store} {sid sid' : String}
    {c' : Conversation} (h : sid' ≠ sid) :
    lookup (updateEntry s sid c') sid' = lookup s sid' := by
  induction s with
  | nil => simp [lookup, updateEntry]
  | cons e s ih =>
    by_cases he : e.1 = sid
    · have he' : e.1 ≠ sid' := fun hc => h (hc ▸ he)
      simp only [updateEntry, if_pos he, lookup]
      rw [if_neg he', if_neg he']
      exact ih
    · simp only [updateEntry, if_neg he, lookup]
      by_cases he' : e.1 = sid'
      · rw [if_pos he', if_pos he']
      · rw [if_neg he', if_neg he']
        exact ih

theorem keys_updateEntry {s : Store} {sid : String} {c' : Conversation} :
    (updateEntry s sid c').map (·.1) = s.map (·.1) := by
  induction s with
  | nil => rfl
  | cons e s ih =>
    by_cases h : e.1 = sid
    · simp only [updateEntry, if_pos h, List.map_cons, ih]
    · simp only [updateEntry, if_neg h, List.map_cons, ih]

theorem keysNodup_updateEntry {s : Store} {sid : String} {c' : Conversation}
    (hn : keysNodup s) : keysNodup (updateEntry s sid c') := by
  unfold keysNodup
  rw [keys_updateEntry]
  exact hn

theorem lookup_filter_of_kept {s : Store} {sid : String} {c : Conversation}
    {p : String × Conversation → Bool} (h : lookup s sid = some c)
    (hp : p (sid, c) = true) : lookup (s.filter p) sid = some c := by
  induction s with
  | nil => simp [lookup] at h
  | cons e s ih =>
    by_cases he : e.1 = sid
    · simp only [lookup, if_pos he, Option.some.injEq] at h
      have hec : e = (sid, c) := by
        calc e = (e.1, e.2) := rfl
          _ = (sid, c) := by rw [he, h]
      subst hec
      simp [List.filter_cons, hp, lookup]
    · simp only [lookup, if_neg he] at h
      by_cases hpe : p e = true
      · simp only [List.filter_cons, hpe, if_true]
        simp only [lookup, if_neg he]
        exact ih h
      · simp only [Bool.not_eq_true] at hpe
        simp only [List.filter_cons, hpe, Bool.false_eq_true, if_false]
        exact ih h

theorem lookup_filter_of_dropped {s : Store} {sid : String} {c : Conversation}
    {p : String × Conversation → Bool} (hn : keysNodup s)
    (h : lookup s sid = some c) (hp : p (sid, c) = false) :
    lookup (s.filter p) sid = none := by
  rw [lookup_eq_none_iff]
  intro e he heq
  have hmem : e ∈ s := (List.filter_sublist s).subset he
  have hpe : p e = true := (List.mem_filter.mp he).2
  have hee : e = (sid, e.2) := Prod.ext heq rfl
  rw [hee] at hmem hpe
  have := keysNodup_eq_of_mem hn hmem (lookup_mem h)
  rw [this] at hpe
  rw [hpe] at hp
  exact Bool.true_eq_false.mp hp

theorem lookup_filter_of_keys {s : Store} {sid : String}
    {p : String × Conversation → Bool}
    (h : ∀ e ∈ s, p e = false → e.1 ≠ sid) :
    lookup (s.filter p) sid = lookup s sid := by
  induction s with
  | nil => rfl
  | cons e s ih =>
    have hrest : ∀ x ∈ s, p x = false → x.1 ≠ sid :=
      fun x hx => h x (List.mem_cons_of_mem e hx)
    by_cases hpe : p e = true
    · simp only [List.filter_cons, hpe, if_true]
      by_cases he : e.1 = sid
      · simp [lookup, if_pos he]
      · simp only [lookup, if_neg he]
        exact ih hrest
    · simp only [Bool.not_eq_true] at hpe
      have he : e.1 ≠ sid := h e (List.mem_cons_self e s) hpe
      simp only [List.filter_cons, hpe, Bool.false_eq_true, if_false]
      rw [ih hrest]
      simp [lookup, if_neg he]

theorem lookup_none_of_sublist {s s' : Store} {sid : String}
    (hsub : List.Sublist s' s) (h : lookup s sid = none) :
    lookup s' sid = none := by
  rw [lookup_eq_none_iff] at h ⊢
  exact fun e he => h e (hsub.subset he)

theorem keysNodup_sublist {s s' : Store} (hsub : List.Sublist s' s)
    (hn : keysNodup s) : keysNodup s' :=
  List.Nodup.sublist (hsub.map (·.1)) hn

theorem keysNodup_append_single {s : Store} {sid : String} {c : Conversation}
    (hn : keysNodup s) (h : lookup s sid = none) :
    keysNodup (s ++ [(sid, c)]) := by
  have hnotin : sid ∉ s.map (·.1) := by
    intro hmem
    obtain ⟨e, he, heq⟩ := List.mem_map.mp hmem
    exact (lookup_eq_none_iff.mp h) e he heq
  unfold keysNodup
  rw [List.map_append]
  refine List.Nodup.append hn (List.nodup_singleton sid) ?_
  intro a ha hb
  simp only [List.map_cons, List.map_nil, List.mem_singleton] at hb
  subst hb
  exact hnotin ha

/-! Lemmas about the eviction pass. -/

theorem eraseKey_sublist (s : Store) (k : String) :
    List.Sublist (eraseKey s k) s :=
  List.filter_sublist s

theorem ageSweep_sublist (s : Store) (now : Nat) :
    List.Sublist (ageSweep s now) s :=
  List.filter_sublist s

theorem capLoop_sublist (maxConv : Nat) (inact : List String) :
    ∀ (sorted : List (String × Conversation)) (cur : Store),
      List.Sublist (capLoop maxConv inact sorted cur) cur := by
  intro sorted
  induction sorted with
  | nil => intro cur; exact List.Sublist.refl cur
  | cons e rest ih =>
    intro cur
    simp only [capLoop]
    by_cases h : (inact.contains e.1 && decide (maxConv < cur.length)) = true
    · rw [if_pos h]
      exact (ih _).trans (eraseKey_sublist cur e.1)
    · rw [if_neg h]
      exact ih cur

theorem capacityPass_sublist (s : Store) (maxConv : Nat) :
    List.Sublist (capacityPass s maxConv) s := by
  unfold capacityPass
  by_cases h : maxConv < s.length
  · rw [if_pos h]
    exact capLoop_sublist _ _ _ s
  · rw [if_neg h]

theorem cleanup_conversations_sublist (m : ConversationManager) (now : Nat) :
    List.Sublist (m.cleanup_old_conversations now).conversations
      m.conversations := by
  unfold ConversationManager.cleanup_old_conversations
  by_cases h : now - m.last_cleanup < m.cleanup_interval
  · rw [if_pos h]
  · rw [if_neg h]
    exact (capacityPass_sublist _ _).trans (ageSweep_sublist _ now)

theorem lookup_eraseKey_other {s : Store} {k sid : String} (h : k ≠ sid) :
    lookup (eraseKey s k) sid = lookup s sid := by
  apply lookup_filter_of_keys
  intro x _ hpx
  simp only [Bool.not_eq_eq_eq_not, Bool.not_false, beq_iff_eq] at hpx
  rw [hpx]
  exact h

theorem capLoop_lookup_of_notin (maxConv : Nat) (inact : List String)
    (sid : String) (hsid : sid ∉ inact) :
    ∀ (sorted : List (String × Conversation)) (cur : Store),
      lookup (capLoop maxConv inact sorted cur) sid = lookup cur sid := by
  intro sorted
  induction sorted with
  | nil => intro cur; rfl
  | cons e rest ih =>
    intro cur
    simp only [capLoop]
    by_cases h : (inact.contains e.1 && decide (maxConv < cur.length)) = true
    · rw [if_pos h]
      have hkey : e.1 ∈ inact := List.elem_iff.mp (Bool.and_eq_true _ _ |>.mp h).1
      have hne : e.1 ≠ sid := fun hc => hsid (hc ▸ hkey)
      rw [ih _]
      exact lookup_eraseKey_other hne
    · rw [if_neg h]
      exact ih cur

theorem cleanup_preserves_active {m : ConversationManager} {now : Nat}
    {sid : String} {c : Conversation} (hn : keysNodup m.conversations)
    (h : lookup m.conversations sid = some c) (hact : c.is_active = true) :
    lookup (m.cleanup_old_conversations now).conversations sid = some c := by
  unfold ConversationManager.cleanup_old_conversations
  by_cases ht : now - m.last_cleanup < m.cleanup_interval
  · rw [if_pos ht]
    exact h
  · rw [if_neg ht]
    have hkeep : lookup (ageSweep m.conversations now) sid = some c := by
      apply lookup_filter_of_kept h
      simp [hact]
    have hnAged : keysNodup (ageSweep m.conversations now) :=
      keysNodup_sublist (ageSweep_sublist _ _) hn
    unfold capacityPass
    by_cases hc2 : m.max_conversations < (ageSweep m.conversations now).length
    · rw [if_pos hc2]
      have hnotin : sid ∉ inactiveKeys (ageSweep m.conversations now) := by
        intro hmem
        obtain ⟨e, he, heq⟩ := List.mem_map.mp hmem
        have hmemAged : e ∈ ageSweep m.conversations now :=
          (List.filter_sublist _).subset he
        have hpe : (!e.2.is_active) = true := (List.mem_filter.mp he).2
        have hee : e = (sid, e.2) := Prod.ext heq rfl
        rw [hee] at hmemAged
        have hec := keysNodup_eq_of_mem hnAged hmemAged (lookup_mem hkeep)
        rw [hec, hact] at hpe
        simp at hpe
      rw [capLoop_lookup_of_notin _ _ _ hnotin]
      exact hkeep
    · rw [if_neg hc2]
      exact hkeep

theorem cleanup_lookup_none {m : ConversationManager} {now : Nat} {sid : String}
    (h : lookup m.conversations sid = none) :
    lookup (m.cleanup_old_conversations now).conversations sid = none :=
  lookup_none_of_sublist (cleanup_conversations_sublist m now) h

theorem cleanup_keysNodup {m : ConversationManager} {now : Nat}
    (hn : keysNodup m.conversations) :
    keysNodup (m.cleanup_old_conversations now).conversations :=
  keysNodup_sublist (cleanup_conversations_sublist m now) hn

theorem cleanup_of_throttled {m : ConversationManager} {now : Nat}
    (h : now - m.last_cleanup < m.cleanup_interval) :
    m.cleanup_old_conversations now = m := by
  unfold ConversationManager.cleanup_old_conversations
  rw [if_pos h]

/-! Lemmas about get_conversation. -/

theorem get_conversation_of_none {m : ConversationManager} {now : Nat}
    {sid : String} {fromN toN : Option String}
    (h : lookup m.conversations sid = none) :
    m.get_conversation now sid fromN toN =
      (freshConversation sid fromN toN now,
       { m.cleanup_old_conversations now with
         conversations := (m.cleanup_old_conversations now).conversations ++
           [(sid, freshConversation sid fromN toN now)] }) := by
  unfold ConversationManager.get_conversation
  rw [cleanup_lookup_none h]

theorem get_conversation_of_active {m : ConversationManager} {now : Nat}
    {sid : String} {fromN toN : Option String} {c : Conversation}
    (hn : keysNodup m.conversations) (h : lookup m.conversations sid = some c)
    (hact : c.is_active = true) :
    m.get_conversation now sid fromN toN = (c, m.cleanup_old_conversations now) := by
  unfold ConversationManager.get_conversation
  rw [cleanup_preserves_active hn h hact]

theorem get_conversation_of_throttled_some {m : ConversationManager} {now : Nat}
    {sid : String} {fromN toN : Option String} {c : Conversation}
    (ht : now - m.last_cleanup < m.cleanup_interval)
    (h : lookup m.conversations sid = some c) :
    m.get_conversation now sid fromN toN = (c, m) := by
  unfold ConversationManager.get_conversation
  rw [cleanup_of_throttled ht, h]

/-! Lemmas about add_message and get_history. -/

theorem add_message_fst (m : ConversationManager) (now : Nat)
    (sid role content : String) (md : Option (List (String × String))) :
    (m.add_message now sid role content md).1 = true := rfl

theorem add_message_of_active {m : ConversationManager} {now : Nat}
    {sid role content : String} {md : Option (List (String × String))}
    {c : Conversation} (hn : keysNodup m.conversations)
    (h : lookup m.conversations sid = some c) (hact : c.is_active = true) :
    lookup (m.add_message now sid role content md).2.conversations sid =
      some (appendedConversation c now role content md) ∧
    keysNodup (m.add_message now sid role content md).2.conversations := by
  simp only [ConversationManager.add_message]
  rw [get_conversation_of_active hn h hact]
  simp only
  constructor
  · rw [lookup_updateEntry_self, cleanup_preserves_active hn h hact]
    rfl
  · exact keysNodup_updateEntry (cleanup_keysNodup hn)

theorem add_message_of_none {m : ConversationManager} {now : Nat}
    {sid role content : String} {md : Option (List (String × String))}
    (hn : keysNodup m.conversations)
    (h : lookup m.conversations sid = none) :
    lookup (m.add_message now sid role content md).2.conversations sid =
      some (appendedConversation (freshConversation sid none none now)
        now role content md) ∧
    keysNodup (m.add_message now sid role content md).2.conversations := by
  simp only [ConversationManager.add_message]
  rw [get_conversation_of_none h]
  simp only
  have hlook : lookup ((m.cleanup_old_conversations now).conversations ++
      [(sid, freshConversation sid none none now)]) sid =
      some (freshConversation sid none none now) :=
    lookup_append_single _ (cleanup_lookup_none h)
  have hnod : keysNodup ((m.cleanup_old_conversations now).conversations ++
      [(sid, freshConversation sid none none now)]) :=
    keysNodup_append_single (cleanup_keysNodup hn) (cleanup_lookup_none h)
  constructor
  · rw [lookup_updateEntry_self, hlook]
    rfl
  · exact keysNodup_updateEntry hnod

theorem appendedConversation_is_active (c : Conversation) (now : Nat)
    (role content : String) (md : Option (List (String × String))) :
    (appendedConversation c now role content md).is_active = c.is_active := rfl

theorem applyAdds_of_active (sid : String) :
    ∀ (apps : List (Nat × String × String)) (m : ConversationManager)
      (c : Conversation), keysNodup m.conversations →
      lookup m.conversations sid = some c → c.is_active = true →
      ∃ c', lookup (applyAdds sid apps m).conversations sid = some c' ∧
        c'.is_active = true ∧
        c'.messages = c.messages ++ apps.map mkMessage ∧
        keysNodup (applyAdds sid apps m).conversations := by
  intro apps
  induction apps with
  | nil =>
    intro m c hn h hact
    exact ⟨c, h, hact, by simp, hn⟩
  | cons a rest ih =>
    intro m c hn h hact
    obtain ⟨hlook, hnod⟩ := @add_message_of_active m a.1 sid a.2.1 a.2.2 none
      c hn h hact
    have hact' : (appendedConversation c a.1 a.2.1 a.2.2 none).is_active = true := by
      rw [appendedConversation_is_active]; exact hact
    obtain ⟨c', h1, h2, h3, h4⟩ := ih _ _ hnod hlook hact'
    refine ⟨c', h1, h2, ?_, h4⟩
    rw [h3]
    simp [appendedConversation, mkMessage]

theorem applyAdds_entry (sid : String) (apps : List (Nat × String × String))
    (m : ConversationManager) (hn : keysNodup m.conversations)
    (h : lookup m.conversations sid = none) (hne : apps ≠ []) :
    ∃ c', lookup (applyAdds sid apps m).conversations sid = some c' ∧
      c'.is_active = true ∧ c'.messages = apps.map mkMessage ∧
      keysNodup (applyAdds sid apps m).conversations := by
  match apps, hne with
  | a :: rest, _ =>
    obtain ⟨hlook, hnod⟩ := @add_message_of_none m a.1 sid a.2.1 a.2.2 none
      hn h
    have hact' : (appendedConversation (freshConversation sid none none a.1)
        a.1 a.2.1 a.2.2 none).is_active = true := rfl
    obtain ⟨c', h1, h2, h3, h4⟩ := applyAdds_of_active sid rest _ _ hnod hlook hact'
    refine ⟨c', h1, h2, ?_, h4⟩
    rw [h3]
    simp [appendedConversation, freshConversation, mkMessage]

theorem get_history_of_active {m : ConversationManager} {now : Nat}
    {sid : String} {limit : Int} {c : Conversation}
    (hn : keysNodup m.conversations) (h : lookup m.conversations sid = some c)
    (hact : c.is_active = true) :
    (m.get_history now sid limit).1 =
      (if 0 < limit then takeLast c.messages limit.toNat
       else c.messages).map toHistoryEntry := by
  simp only [ConversationManager.get_history]
  rw [get_conversation_of_active hn h hact]

theorem get_history_of_none {m : ConversationManager} {now : Nat}
    {sid : String} {limit : Int} (h : lookup m.conversations sid = none) :
    (m.get_history now sid limit).1 = [] := by
  simp only [ConversationManager.get_history]
  rw [get_conversation_of_none h]
  simp [freshConversation, takeLast]

theorem takeLast_nil (n : Nat) : takeLast ([] : List α) n = [] := by
  simp [takeLast]

theorem takeLast_map (f : α → β) (l : List α) (n : Nat) :
    takeLast (l.map f) n = (takeLast l n).map f := by
  simp [takeLast, List.map_drop]

theorem applyAdds_history (m₀ : ConversationManager) (sid : String)
    (apps : List (Nat × String × String)) (nowH : Nat)
    (hn : keysNodup m₀.conversations)
    (h0 : lookup m₀.conversations sid = none) (limit : Int) :
    ((applyAdds sid apps m₀).get_history nowH sid limit).1 =
      (if 0 < limit then takeLast (apps.map mkMessage) limit.toNat
       else apps.map mkMessage).map toHistoryEntry := by
  rcases eq_or_ne apps [] with rfl | hne
  · simp only [applyAdds, List.map_nil]
    rw [get_history_of_none h0]
    cases h : decide (0 < limit) <;> simp_all [takeLast_nil]
  · obtain ⟨c', h1, h2, h3, h4⟩ := applyAdds_entry sid apps m₀ hn h0 hne
    rw [get_history_of_active h4 h1 h2, h3]

/-! Claim C1. -/

/-- Claim C1: starting from a store that does not hold the call_sid, every
add_message call in a sequence of appends reports success, get_history with
any limit at most 0 returns exactly the appended messages oldest first,
and get_history with limit k for 0 < k < N returns exactly the last k
appended messages oldest first. -/
theorem claim_C1 (m₀ : ConversationManager) (sid : String)
    (apps : List (Nat × String × String)) (nowH : Nat)
    (hn : keysNodup m₀.conversations)
    (h0 : lookup m₀.conversations sid = none) :
    (∀ (m : ConversationManager) (now : Nat) (role content : String)
        (md : Option (List (String × String))),
      (m.add_message now sid role content md).1 = true) ∧
    (∀ limit : Int, limit ≤ 0 →
      ((applyAdds sid apps m₀).get_history nowH sid limit).1 =
        apps.map (fun a => toHistoryEntry (mkMessage a))) ∧
    (∀ k : Nat, 0 < k → k < apps.length →
      ((applyAdds sid apps m₀).get_history nowH sid (k : Int)).1 =
        takeLast (apps.map (fun a => toHistoryEntry (mkMessage a))) k) := by
  refine ⟨fun m now role content md => rfl, ?_, ?_⟩
  · intro limit hlim
    rw [applyAdds_history m₀ sid apps nowH hn h0 limit, if_neg (by omega),
      List.map_map]
    rfl
  · intro k hk hkN
    have hkz : (0 : Int) < (k : Int) := by exact_mod_cast hk
    rw [applyAdds_history m₀ sid apps nowH hn h0 (k : Int), if_pos hkz]
    have htn : ((k : Int)).toNat = k := Int.toNat_natCast k
    rw [htn, takeLast_map, List.map_map, takeLast_map]
    rfl

/-- Closed instance of claim C1: two appends to a fresh store, read back
with limit 0 (both messages) and limit 1 (only the last one). -/
theorem claim_C1_witness :
    ((applyAdds "CA1" [(1, "user", "Hello"), (2, "assistant", "Hi!")]
        (ConversationManager.make 1000 3600 0)).get_history 3 "CA1" 0).1 =
      [({ role := "user", content := "Hello", timestamp := 1,
          metadata := [] } : HistoryEntry),
       { role := "assistant", content := "Hi!", timestamp := 2,
         metadata := [] }] ∧
    ((applyAdds "CA1" [(1, "user", "Hello"), (2, "assistant", "Hi!")]
        (ConversationManager.make 1000 3600 0)).get_history 3 "CA1"
        ((1 : Nat) : Int)).1 =
      [{ role := "assistant", content := "Hi!", timestamp := 2,
         metadata := [] }] := by
  have h := claim_C1 (ConversationManager.make 1000 3600 0) "CA1"
    [(1, "user", "Hello"), (2, "assistant", "Hi!")] 3 (by decide) rfl
  constructor
  · rw [h.2.1 0 (le_refl 0)]
    rfl
  · rw [h.2.2 1 (by decide) (by decide)]
    rfl

/-! Claim C2. -/

/-- Counterexample to claim C2 as stated: on a fresh empty store,
get_history for an unknown call_sid returns an empty history but has the
side effect of inserting a brand-new conversation under that call_sid, so
the set of stored conversations is not as before the call. -/
theorem claim_C2_counterexample :
    ((ConversationManager.make 1000 3600 0).get_history 5 "CA9" 10).1 = [] ∧
    (ConversationManager.make 1000 3600 0).conversations = [] ∧
    lookup ((ConversationManager.make 1000 3600 0).get_history 5
        "CA9" 10).2.conversations "CA9" =
      some (freshConversation "CA9" none none 5) := by
  decide

/-- Claim C2 (amended): with the eviction pass throttled, get_history on an
unknown call_sid returns an empty history but inserts a fresh active
conversation under that call_sid into the store, and get_history on a
known call_sid leaves the manager state unchanged. -/
theorem claim_C2_amended (m : ConversationManager) (now : Nat) (sid : String)
    (limit : Int) (ht : now - m.last_cleanup < m.cleanup_interval) :
    (lookup m.conversations sid = none →
      (m.get_history now sid limit).1 = [] ∧
      (m.get_history now sid limit).2 =
        { m with conversations :=
            m.conversations ++ [(sid, freshConversation sid none none now)] }) ∧
    (∀ c, lookup m.conversations sid = some c →
      (m.get_history now sid limit).2 = m) := by
  constructor
  · intro h
    refine ⟨get_history_of_none h, ?_⟩
    simp only [ConversationManager.get_history]
    rw [get_conversation_of_none h, cleanup_of_throttled ht]
  · intro c hc
    simp only [ConversationManager.get_history]
    rw [get_conversation_of_throttled_some ht hc]

/-- Closed instance of the amended claim C2: a store holding CA1; reading
the history of the unknown CA9 returns an empty list and inserts CA9,
while reading the history of CA1 leaves the manager unchanged. -/
theorem claim_C2_witness :
    ((mgrC2.get_history 5 "CA9" 10).1 = [] ∧
     (mgrC2.get_history 5 "CA9" 10).2 =
       { mgrC2 with conversations :=
           mgrC2.conversations ++
             [("CA9", freshConversation "CA9" none none 5)] }) ∧
    (mgrC2.get_history 5 "CA1" 10).2 = mgrC2 := by
  exact ⟨(claim_C2_amended mgrC2 5 "CA9" 10 (by decide)).1 rfl,
    (claim_C2_amended mgrC2 5 "CA1" 10 (by decide)).2 convC2 rfl⟩

/-! Claim C4. -/

/-- Claim C4: end_conversation on a stored call_sid reports true, clears
is_active and stamps end_time and duration into the metadata of that
conversation; on an unknown call_sid it reports false and leaves the
manager state unchanged. -/
theorem claim_C4 (m : ConversationManager) (now : Nat) (sid : String) :
    (∀ c, lookup m.conversations sid = some c →
      (m.end_conversation now sid).1 = true ∧
      lookup (m.end_conversation now sid).2.conversations sid =
        some { c with
          is_active := false
          metadata := { c.metadata with
            end_time := some now
            duration := some ((now : Int) - (c.start_time : Int)) } }) ∧
    (lookup m.conversations sid = none →
      m.end_conversation now sid = (false, m)) := by
  constructor
  · intro c hc
    simp only [ConversationManager.end_conversation]
    rw [hc]
    refine ⟨rfl, ?_⟩
    simp only
    rw [lookup_updateEntry_self, hc]
    rfl
  · intro h
    simp only [ConversationManager.end_conversation]
    rw [h]

/-- Closed instance of claim C4: ending the stored CA1 at time 10 reports
true and stamps end_time 10 and duration 8; ending the unknown CA9 reports
false and changes nothing. -/
theorem claim_C4_witness :
    ((mgrC4.end_conversation 10 "CA1").1 = true ∧
     lookup (mgrC4.end_conversation 10 "CA1").2.conversations "CA1" =
       some { call_sid := "CA1", from_number := "+15550001"
              to_number := "+15550002", start_time := 2, messages := []
              is_active := false
              metadata := { last_activity := none, message_count := none
                            end_time := some 10, duration := some 8 } }) ∧
    mgrC4.end_conversation 10 "CA9" = (false, mgrC4) := by
  exact ⟨(claim_C4 mgrC4 10 "CA1").1 _ rfl, (claim_C4 mgrC4 10 "CA9").2 rfl⟩

/-! Claim C9. -/

/-- Claim C9: end_conversation on a conversation that is already inactive
again reports true, keeps is_active false, and overwrites the end_time and
duration metadata with values recomputed from the later call time. -/
theorem claim_C9 (m : ConversationManager) (now₂ : Nat) (sid : String)
    (c : Conversation) (hc : lookup m.conversations sid = some c)
    (hinact : c.is_active = false) :
    (m.end_conversation now₂ sid).1 = true ∧
    lookup (m.end_conversation now₂ sid).2.conversations sid =
      some { c with
        is_active := false
        metadata := { c.metadata with
          end_time := some now₂
          duration := some ((now₂ : Int) - (c.start_time : Int)) } } := by
  simp only [ConversationManager.end_conversation]
  rw [hc]
  refine ⟨rfl, ?_⟩
  simp only
  rw [lookup_updateEntry_self, hc]
  rfl

/-- Closed instance of claim C9: re-ending the already-ended CA1 at the
later time 9 reports true again and overwrites end_time to 9 and duration
to 7. -/
theorem claim_C9_witness :
    (mgrC9.end_conversation 9 "CA1").1 = true ∧
    lookup (mgrC9.end_conversation 9 "CA1").2.conversations "CA1" =
      some { call_sid := "CA1", from_number := "unknown"
             to_number := "unknown", start_time := 2, messages := []
             is_active := false
             metadata := { last_activity := none, message_count := none
                           end_time := some 9, duration := some 7 } } := by
  exact claim_C9 mgrC9 9 "CA1" _ rfl rfl

/-! Claim C3. -/

/-- Claim C3: no eviction pass (age-based or capacity-based) ever removes
an active conversation: any stored conversation with is_active true is
still stored, unchanged, after cleanup_old_conversations runs. -/
theorem claim_C3 (m : ConversationManager) (now : Nat) (sid : String)
    (c : Conversation) (hn : keysNodup m.conversations)
    (h : lookup m.conversations sid = some c) (hact : c.is_active = true) :
    lookup (m.cleanup_old_conversations now).conversations sid = some c :=
  cleanup_preserves_active hn h hact

/-- Closed instance of claim C3: with max_conversations = 2, two inactive
conversations and one active one, an un-throttled eviction pass keeps the
active conversation, removes the oldest inactive one, keeps the newer
inactive one, and lands exactly at the cap. -/
theorem claim_C3_witness :
    lookup (mgrC3.cleanup_old_conversations 4000).conversations "c" =
      some convC3c ∧
    (mgrC3.cleanup_old_conversations 4000).conversations.length = 2 ∧
    lookup (mgrC3.cleanup_old_conversations 4000).conversations "a" = none ∧
    lookup (mgrC3.cleanup_old_conversations 4000).conversations "b" =
      some convC3b :=
  ⟨claim_C3 mgrC3 4000 "c" convC3c (by decide) (by decide) rfl,
   by decide, by decide, by decide⟩

/-! Claim C6. -/

/-- Claim C6: the age-based sweep removes exactly the inactive
conversations started more than 24 hours (86400 seconds) before the
current time; every conversation that is active or started within the
last 24 hours is retained unchanged by the sweep. -/
theorem claim_C6 (s : Store) (now : Nat) (sid : String) (c : Conversation)
    (hn : keysNodup s) (h : lookup s sid = some c) :
    (c.is_active = false → c.start_time + 86400 < now →
      lookup (ageSweep s now) sid = none) ∧
    (c.is_active = true ∨ now ≤ c.start_time + 86400 →
      lookup (ageSweep s now) sid = some c) := by
  constructor
  · intro hin hold
    apply lookup_filter_of_dropped hn h
    simp [hin, hold]
  · intro hor
    apply lookup_filter_of_kept h
    rcases hor with hact | hyoung
    · simp [hact]
    · simp [Nat.not_lt.mpr hyoung]

/-- Closed instance of claim C6: at time 100000 the sweep removes the
inactive conversation started 25 hours before (start 10000) and retains
the one started 23 hours before (start 17200). -/
theorem claim_C6_witness :
    lookup (ageSweep storeC6 100000) "old" = none ∧
    lookup (ageSweep storeC6 100000) "young" = some convC6young :=
  ⟨(claim_C6 storeC6 100000 "old" convC6old (by decide) (by decide)).1
      rfl (by decide),
   (claim_C6 storeC6 100000 "young" convC6young (by decide) (by decide)).2
      (Or.inr (by decide))⟩

/-! Claim C8. -/

theorem capLoop_length_le (maxConv : Nat) (inact : List String)
    (sorted : List (String × Conversation)) (cur : Store) :
    (capLoop maxConv inact sorted cur).length ≤ cur.length :=
  (capLoop_sublist maxConv inact sorted cur).length_le

theorem capLoop_spec (maxConv : Nat) (inact : List String) :
    ∀ (sorted : List (String × Conversation)) (cur : Store),
      (∀ e ∈ cur, e.2.is_active = false → e.1 ∈ sorted.map (·.1)) →
      (∀ e ∈ cur, e.2.is_active = false → e.1 ∈ inact) →
      (capLoop maxConv inact sorted cur).length ≤ maxConv ∨
        ∀ e ∈ capLoop maxConv inact sorted cur, e.2.is_active = true := by
  intro sorted
  induction sorted with
  | nil =>
    intro cur hcov _
    right
    intro e he
    cases hb : e.2.is_active with
    | true => rfl
    | false =>
      have := hcov e he hb
      simp at this
  | cons x rest ih =>
    intro cur hcov hinact
    simp only [capLoop]
    by_cases hcond : (inact.contains x.1 && decide (maxConv < cur.length)) = true
    · rw [if_pos hcond]
      apply ih
      · intro e he hef
        have hecur : e ∈ cur := (eraseKey_sublist cur x.1).subset he
        have hkey := hcov e hecur hef
        have hne : e.1 ≠ x.1 := by
          have hp := (List.mem_filter.mp he).2
          simpa using hp
        simp only [List.map_cons, List.mem_cons] at hkey
        rcases hkey with h1 | h2
        · exact absurd h1 hne
        · exact h2
      · intro e he hef
        exact hinact e ((eraseKey_sublist cur x.1).subset he) hef
    · rw [if_neg hcond]
      by_cases hlen : maxConv < cur.length
      · have hcont : inact.contains x.1 = false := by
          cases hc : inact.contains x.1 with
          | false => rfl
          | true => exact absurd (by rw [hc, decide_eq_true hlen]; rfl) hcond
        apply ih
        · intro e he hef
          have hkey := hcov e he hef
          have hne : e.1 ≠ x.1 := by
            intro heq
            have hmem : x.1 ∈ inact := heq ▸ hinact e he hef
            have hctrue : inact.contains x.1 = true := List.elem_iff.mpr hmem
            rw [hctrue] at hcont
            exact Bool.true_eq_false.mp hcont
          simp only [List.map_cons, List.mem_cons] at hkey
          rcases hkey with h1 | h2
          · exact absurd h1 hne
          · exact h2
        · exact hinact
      · left
        calc (capLoop maxConv inact rest cur).length ≤ cur.length :=
              capLoop_length_le maxConv inact rest cur
          _ ≤ maxConv := Nat.not_lt.mp hlen

theorem capacityPass_spec (s : Store) (maxConv : Nat) :
    (capacityPass s maxConv).length ≤ maxConv ∨
      ∀ e ∈ capacityPass s maxConv, e.2.is_active = true := by
  unfold capacityPass
  by_cases h : maxConv < s.length
  · rw [if_pos h]
    apply capLoop_spec
    · intro e he _
      refine List.mem_map.mpr ⟨e, ?_, rfl⟩
      rw [List.mem_insertionSort]
      exact he
    · intro e he hef
      exact List.mem_map.mpr ⟨e, List.mem_filter.mpr ⟨he, by simp [hef]⟩, rfl⟩
  · rw [if_neg h]
    left
    exact Nat.not_lt.mp h

/-- Claim C8 (amended): after an un-throttled eviction pass the store
either holds at most max_conversations entries or every remaining
conversation is active (active conversations are never evicted, so the
store may stay over the cap when the active conversations alone exceed
it). -/
theorem claim_C8_amended (m : ConversationManager) (now : Nat)
    (ht : m.cleanup_interval ≤ now - m.last_cleanup) :
    (m.cleanup_old_conversations now).conversations.length ≤
        m.max_conversations ∨
      ∀ e ∈ (m.cleanup_old_conversations now).conversations,
        e.2.is_active = true := by
  unfold ConversationManager.cleanup_old_conversations
  rw [if_neg (Nat.not_lt.mpr ht)]
  exact capacityPass_spec _ _

/-- Counterexample to claim C8 as stated: in the reachable state mgrC8 the
eviction pass has just run un-throttled after an insert, yet the store
still holds 2 conversations with max_conversations = 1, because both are
active and capacity pressure never evicts active conversations. -/
theorem claim_C8_counterexample :
    mgrC8.conversations.length = 2 ∧
    mgrC8.max_conversations = 1 ∧
    ¬ (mgrC8.conversations.length ≤ mgrC8.max_conversations) := by
  decide

/-- Closed instance of the amended claim C8: running the un-throttled pass
on the two-active store satisfies the disjunction (here through the
all-active branch). -/
theorem claim_C8_witness :
    (mgrC8pre.cleanup_old_conversations 4000).conversations.length ≤
        mgrC8pre.max_conversations ∨
      ∀ e ∈ (mgrC8pre.cleanup_old_conversations 4000).conversations,
        e.2.is_active = true :=
  claim_C8_amended mgrC8pre 4000 (by decide)

/-! Claim C10. -/

theorem filter_two_length_le {α : Type} (p q : α → Bool) (l : List α)
    (hpq : ∀ x, ¬(p x = true ∧ q x = true)) :
    (l.filter p).length + (l.filter q).length ≤ l.length := by
  induction l with
  | nil => simp
  | cons x l ih =>
    by_cases hp : p x = true
    · have hq : q x = false := by
        cases hqx : q x with
        | false => rfl
        | true => exact absurd ⟨hp, hqx⟩ (hpq x)
      simp only [List.filter_cons, hp, if_true, hq, Bool.false_eq_true,
        if_false, List.length_cons]
      omega
    · simp only [Bool.not_eq_true] at hp
      by_cases hq : q x = true
      · simp only [List.filter_cons, hp, Bool.false_eq_true, if_false, hq,
          if_true, List.length_cons]
        omega
      · simp only [Bool.not_eq_true] at hq
        simp only [List.filter_cons, hp, hq, Bool.false_eq_true, if_false,
          List.length_cons]
        omega

theorem filter_two_length_lt {α : Type} (p q : α → Bool) (l : List α)
    (hpq : ∀ x, ¬(p x = true ∧ q x = true))
    (h : ∃ x ∈ l, p x = false ∧ q x = false) :
    (l.filter p).length + (l.filter q).length < l.length := by
  induction l with
  | nil => simp at h
  | cons x l ih =>
    rcases h with ⟨y, hy, hyp, hyq⟩
    rcases List.mem_cons.mp hy with rfl | hyl
    · simp only [List.filter_cons, hyp, hyq, Bool.false_eq_true, if_false,
        List.length_cons]
      have := filter_two_length_le p q l hpq
      omega
    · have hlt := ih ⟨y, hyl, hyp, hyq⟩
      by_cases hp : p x = true
      · have hq : q x = false := by
          cases hqx : q x with
          | false => rfl
          | true => exact absurd ⟨hp, hqx⟩ (hpq x)
        simp only [List.filter_cons, hp, if_true, hq, Bool.false_eq_true,
          if_false, List.length_cons]
        omega
      · simp only [Bool.not_eq_true] at hp
        by_cases hq : q x = true
        · simp only [List.filter_cons, hp, Bool.false_eq_true, if_false, hq,
            if_true, List.length_cons]
          omega
        · simp only [Bool.not_eq_true] at hq
          simp only [List.filter_cons, hp, hq, Bool.false_eq_true, if_false,
            List.length_cons]
          omega

theorem statsOf_role_gap {now : Nat} {sid : String} {c : Conversation}
    (h : ∃ msg ∈ c.messages, msg.role ≠ "user" ∧ msg.role ≠ "assistant") :
    (statsOf now sid c).user_messages + (statsOf now sid c).assistant_messages <
      (statsOf now sid c).total_messages := by
  simp only [statsOf]
  apply filter_two_length_lt
  · rintro x ⟨h1, h2⟩
    rw [beq_iff_eq] at h1 h2
    rw [h1] at h2
    exact absurd h2 (by decide)
  · obtain ⟨msg, hm, h1, h2⟩ := h
    exact ⟨msg, hm, by simpa using h1, by simpa using h2⟩

/-- Claim C10: add_message validates nothing and stores a message with any
role string (reporting success and appending it to the conversation), and
get_conversation_stats counts user and assistant messages by exact string
equality with user and assistant, so a conversation holding a message with
any other role reports user_messages + assistant_messages strictly below
total_messages. -/
theorem claim_C10 (m : ConversationManager) (now : Nat)
    (sid role content : String) (md : Option (List (String × String)))
    (c : Conversation) :
    (m.add_message now sid role content md).1 = true ∧
    (keysNodup m.conversations → lookup m.conversations sid = some c →
      c.is_active = true →
      lookup (m.add_message now sid role content md).2.conversations sid =
        some (appendedConversation c now role content md)) ∧
    (now - m.last_cleanup < m.cleanup_interval →
      lookup m.conversations sid = some c →
      (∃ msg ∈ c.messages, msg.role ≠ "user" ∧ msg.role ≠ "assistant") →
      (m.get_conversation_stats now sid).1.user_messages +
          (m.get_conversation_stats now sid).1.assistant_messages <
        (m.get_conversation_stats now sid).1.total_messages) := by
  refine ⟨rfl, ?_, ?_⟩
  · intro hn hc hact
    exact (add_message_of_active hn hc hact).1
  · intro ht hc hbad
    simp only [ConversationManager.get_conversation_stats]
    rw [get_conversation_of_throttled_some ht hc]
    exact statsOf_role_gap hbad

/-- Closed instance of claim C10: appending a message with role system
reports success and stores it, and the stats of the three-message
conversation count 1 + 1 user and assistant messages against 3 total. -/
theorem claim_C10_witness :
    (mgrC10.add_message 5 "CA1" "system" "note2" none).1 = true ∧
    lookup (mgrC10.add_message 5 "CA1" "system" "note2" none).2.conversations
        "CA1" = some (appendedConversation convC10 5 "system" "note2" none) ∧
    (mgrC10.get_conversation_stats 5 "CA1").1.user_messages +
        (mgrC10.get_conversation_stats 5 "CA1").1.assistant_messages <
      (mgrC10.get_conversation_stats 5 "CA1").1.total_messages := by
  have h := claim_C10 mgrC10 5 "CA1" "system" "note2" none convC10
  exact ⟨h.1, h.2.1 (by decide) rfl rfl, h.2.2 (by decide) rfl (by decide)⟩

/-! Claim C7. -/

theorem searchLoop_length (now : Nat) (query : String) (limit : Int) :
    ∀ (entries : List (String × Conversation)) (count : Nat),
      (count : Int) < limit →
      ((searchLoop now query limit entries count).length : Int) ≤
        limit - count := by
  intro entries
  induction entries with
  | nil =>
    intro count h
    simp only [searchLoop, List.length_nil]
    omega
  | cons e rest ih =>
    intro count h
    simp only [searchLoop]
    cases hf : e.2.messages.find? (fun msg => containsCI query msg.content) with
    | some msg =>
      simp only
      by_cases hle : limit ≤ ((count : Int) + 1)
      · rw [if_pos hle]
        simp only [List.length_cons, List.length_nil]
        omega
      · rw [if_neg hle]
        have hrec := ih (count + 1) (by push_cast; omega)
        simp only [List.length_cons]
        push_cast at hrec ⊢
        omega
    | none =>
      simp only
      by_cases hle : limit ≤ (count : Int)
      · rw [if_pos hle]
        simp only [List.length_nil]
        omega
      · rw [if_neg hle]
        exact ih count h

theorem searchLoop_sids (now : Nat) (query : String) (limit : Int) :
    ∀ (entries : List (String × Conversation)) (count : Nat),
      List.Sublist
        ((searchLoop now query limit entries count).map
          (fun r => r.stats.call_sid))
        (entries.map (·.1)) := by
  intro entries
  induction entries with
  | nil =>
    intro count
    simp [searchLoop]
  | cons e rest ih =>
    intro count
    simp only [searchLoop]
    cases hf : e.2.messages.find? (fun msg => containsCI query msg.content) with
    | some msg =>
      simp only
      by_cases hle : limit ≤ ((count : Int) + 1)
      · rw [if_pos hle]
        simp only [List.map_cons, List.map_nil, statsOf]
        exact List.Sublist.cons₂ e.1 (List.nil_sublist _)
      · rw [if_neg hle]
        simp only [List.map_cons, statsOf]
        exact List.Sublist.cons₂ e.1 (ih (count + 1))
    | none =>
      simp only
      by_cases hle : limit ≤ (count : Int)
      · rw [if_pos hle]
        exact List.nil_sublist _
      · rw [if_neg hle]
        simp only [List.map_cons]
        exact List.Sublist.cons e.1 (ih count)

theorem searchLoop_mem (now : Nat) (query : String) (limit : Int) :
    ∀ (entries : List (String × Conversation)) (count : Nat)
      (r : SearchResult), r ∈ searchLoop now query limit entries count →
      ∃ e ∈ entries, ∃ msg,
        e.2.messages.find? (fun ms => containsCI query ms.content) = some msg ∧
        r = { stats := statsOf now e.1 e.2, matching_message := msg.content } := by
  intro entries
  induction entries with
  | nil =>
    intro count r hr
    simp [searchLoop] at hr
  | cons e rest ih =>
    intro count r hr
    simp only [searchLoop] at hr
    cases hf : e.2.messages.find? (fun msg => containsCI query msg.content) with
    | some msg =>
      rw [hf] at hr
      simp only at hr
      by_cases hle : limit ≤ ((count : Int) + 1)
      · rw [if_pos hle] at hr
        simp only [List.mem_singleton] at hr
        exact ⟨e, List.mem_cons_self e rest, msg, hf, hr⟩
      · rw [if_neg hle] at hr
        rcases List.mem_cons.mp hr with rfl | hr2
        · exact ⟨e, List.mem_cons_self e rest, msg, hf, rfl⟩
        · obtain ⟨e', he', msg', hm', hr'⟩ := ih (count + 1) r hr2
          exact ⟨e', List.mem_cons_of_mem e he', msg', hm', hr'⟩
    | none =>
      rw [hf] at hr
      simp only at hr
      by_cases hle : limit ≤ (count : Int)
      · rw [if_pos hle] at hr
        simp at hr
      · rw [if_neg hle] at hr
        obtain ⟨e', he', msg', hm', hr'⟩ := ih count r hr
        exact ⟨e', List.mem_cons_of_mem e he', msg', hm', hr'⟩

theorem get_conversation_stats_of_throttled_some {m : ConversationManager}
    {now : Nat} {sid : String} {c : Conversation}
    (ht : now - m.last_cleanup < m.cleanup_interval)
    (hc : lookup m.conversations sid = some c) :
    m.get_conversation_stats now sid = (statsOf now sid c, m) := by
  simp only [ConversationManager.get_conversation_stats]
  rw [get_conversation_of_throttled_some ht hc]

theorem searchLoopSt_throttled {m : ConversationManager} {now : Nat}
    (query : String) (limit : Int)
    (ht : now - m.last_cleanup < m.cleanup_interval) :
    ∀ (entries : List (String × Conversation)) (count : Nat),
      (∀ e ∈ entries, e.2.call_sid = e.1 ∧
        lookup m.conversations e.1 = some e.2) →
      searchLoopSt now query limit entries count m =
        (searchLoop now query limit entries count, m) := by
  intro entries
  induction entries with
  | nil => intro count _; rfl
  | cons e rest ih =>
    intro count hco
    obtain ⟨hsid, hlook⟩ := hco e (List.mem_cons_self e rest)
    have hrest : ∀ x ∈ rest, x.2.call_sid = x.1 ∧
        lookup m.conversations x.1 = some x.2 :=
      fun x hx => hco x (List.mem_cons_of_mem e hx)
    have hstats : m.get_conversation_stats now e.2.call_sid =
        (statsOf now e.1 e.2, m) := by
      rw [hsid]
      exact get_conversation_stats_of_throttled_some ht hlook
    have h1 : (m.get_conversation_stats now e.2.call_sid).1 =
        statsOf now e.1 e.2 := by rw [hstats]
    have h2 : (m.get_conversation_stats now e.2.call_sid).2 = m := by
      rw [hstats]
    simp only [searchLoopSt, searchLoop]
    cases hf : e.2.messages.find? (fun msg => containsCI query msg.content) with
    | some msg =>
      simp only [h1, h2]
      by_cases hle : limit ≤ ((count : Int) + 1)
      · rw [if_pos hle, if_pos hle]
      · rw [if_neg hle, if_neg hle, ih (count + 1) hrest]
    | none =>
      simp only
      by_cases hle : limit ≤ (count : Int)
      · rw [if_pos hle, if_pos hle]
      · rw [if_neg hle, if_neg hle]
        exact ih count hrest

/-- Claim C7 (amended): in the throttled steady state, on a store with
unique keys whose conversations carry their own key as call_sid, search
with any limit of at least 1 leaves the store unchanged and returns at
most limit results; the call_sids of the results are pairwise distinct
(each result comes from one scanned conversation); each result carries
the first message of its conversation whose content contains the query
case-insensitively, annotated as matching_message.  For limit at most 0
the bound fails: the loop checks the bound only after scanning a
conversation, so the first conversation can still contribute one
result.  Un-throttled, the stats call embedded in the scan runs the
eviction pass and mutates the store mid-iteration, a state in which
CPython aborts the live dict iteration, so the result guarantees are
scoped to the throttled state. -/
theorem claim_C7_amended (m : ConversationManager) (now : Nat)
    (query : String) (limit : Int) (hlim : 1 ≤ limit)
    (ht : now - m.last_cleanup < m.cleanup_interval)
    (hn : keysNodup m.conversations)
    (hco : ∀ e ∈ m.conversations, e.2.call_sid = e.1) :
    (m.search_conversations now query limit).2 = m ∧
    (((m.search_conversations now query limit).1.length : Int) ≤ limit) ∧
    ((m.search_conversations now query limit).1.map
      (fun r => r.stats.call_sid)).Nodup ∧
    (∀ r ∈ (m.search_conversations now query limit).1,
      ∃ e ∈ m.conversations, ∃ msg,
        e.2.messages.find? (fun ms => containsCI query ms.content) = some msg ∧
        containsCI query msg.content = true ∧
        r = { stats := statsOf now e.1 e.2,
              matching_message := msg.content }) := by
  have hpure : m.search_conversations now query limit =
      (searchLoop now query limit m.conversations 0, m) := by
    simp only [ConversationManager.search_conversations]
    apply searchLoopSt_throttled query limit ht
    intro e he
    exact ⟨hco e he, lookup_of_mem hn he⟩
  rw [hpure]
  refine ⟨rfl, ?_, ?_, ?_⟩
  · have h := searchLoop_length now query limit m.conversations 0 (by omega)
    simpa using h
  · exact List.Nodup.sublist (searchLoop_sids now query limit m.conversations 0) hn
  · intro r hr
    obtain ⟨e, he, msg, hm, hr'⟩ :=
      searchLoop_mem now query limit m.conversations 0 r hr
    have hc := List.find?_some hm
    exact ⟨e, he, msg, hm, hc, hr'⟩

/-- Counterexample to claim C7 as stated: with limit 0 the search still
returns one result, because the loop only checks len(results) >= limit
after having scanned (and recorded a match from) the first conversation. -/
theorem claim_C7_counterexample :
    (mgrC7x.search_conversations 50 "hello" 0).1.length = 1 ∧
    ¬ (((mgrC7x.search_conversations 50 "hello" 0).1.length : Int) ≤ 0) := by
  decide

/-- Closed instance of the amended claim C7: five conversations all
matching hello, searched with limit 1, give at most one (indeed exactly
one) result with distinct call_sids and a correct first-match
annotation. -/
theorem claim_C7_witness :
    ((mgrC7.search_conversations 50 "hello" 1).2 = mgrC7 ∧
     (((mgrC7.search_conversations 50 "hello" 1).1.length : Int) ≤ 1) ∧
     ((mgrC7.search_conversations 50 "hello" 1).1.map
       (fun r => r.stats.call_sid)).Nodup ∧
     (∀ r ∈ (mgrC7.search_conversations 50 "hello" 1).1,
       ∃ e ∈ mgrC7.conversations, ∃ msg,
         e.2.messages.find? (fun ms => containsCI "hello" ms.content) =
           some msg ∧
         containsCI "hello" msg.content = true ∧
         r = { stats := statsOf 50 e.1 e.2,
               matching_message := msg.content })) ∧
    (mgrC7.search_conversations 50 "hello" 1).1.length = 1 :=
  ⟨claim_C7_amended mgrC7 50 "hello" 1 (by omega) (by decide) (by decide)
     (by decide), by decide⟩

/-! Claim C5. -/

theorem lookup_sublist_some {s s' : Store} {sid : String} {c c' : Conversation}
    (hn : keysNodup s) (hsub : List.Sublist s' s)
    (h : lookup s sid = some c) (h' : lookup s' sid = some c') : c' = c :=
  keysNodup_eq_of_mem hn (hsub.subset (lookup_mem h')) (lookup_mem h)

theorem lookup_append_cases {s t : Store} {sid : String} {c' : Conversation}
    (h : lookup (s ++ t) sid = some c') :
    lookup s sid = some c' ∨ (lookup s sid = none ∧ lookup t sid = some c') := by
  induction s with
  | nil => exact Or.inr ⟨rfl, h⟩
  | cons e s ih =>
    by_cases he : e.1 = sid
    · left
      simp only [List.cons_append, lookup, if_pos he] at h ⊢
      exact h
    · simp only [List.cons_append, lookup, if_neg he] at h ⊢
      exact ih h

theorem get_conversation_eq_of_cleanup_some {m : ConversationManager}
    {now : Nat} {sid : String} {fromN toN : Option String} {c₂ : Conversation}
    (hl : lookup (m.cleanup_old_conversations now).conversations sid = some c₂) :
    m.get_conversation now sid fromN toN = (c₂, m.cleanup_old_conversations now) := by
  unfold ConversationManager.get_conversation
  rw [hl]

theorem get_conversation_eq_of_cleanup_none {m : ConversationManager}
    {now : Nat} {sid : String} {fromN toN : Option String}
    (hl : lookup (m.cleanup_old_conversations now).conversations sid = none) :
    m.get_conversation now sid fromN toN =
      (freshConversation sid fromN toN now,
       { m.cleanup_old_conversations now with
         conversations := (m.cleanup_old_conversations now).conversations ++
           [(sid, freshConversation sid fromN toN now)] }) := by
  unfold ConversationManager.get_conversation
  rw [hl]

theorem get_conversation_stats_snd (m : ConversationManager) (now : Nat)
    (sid : String) :
    (m.get_conversation_stats now sid).2 =
      (m.get_conversation now sid none none).2 := rfl

theorem InactiveOrFresh_of_inactive {s : Store} {sid : String}
    {c : Conversation} (h : lookup s sid = some c)
    (hin : c.is_active = false) : InactiveOrFresh s sid := by
  intro c'' h''
  left
  have hcc : c'' = c := (Option.some.inj (h.symm.trans h'')).symm
  rw [hcc]
  exact hin

theorem gc_snd_inactiveOrFresh {m : ConversationManager} {now : Nat}
    {sid' : String} {fromN toN : Option String} {sid : String}
    (hn : keysNodup m.conversations)
    (hP : InactiveOrFresh m.conversations sid) :
    InactiveOrFresh (m.get_conversation now sid' fromN toN).2.conversations
      sid := by
  intro c'' h''
  cases hl : lookup (m.cleanup_old_conversations now).conversations sid' with
  | some c₂ =>
    rw [get_conversation_eq_of_cleanup_some hl] at h''
    have hmem := (cleanup_conversations_sublist m now).subset (lookup_mem h'')
    exact hP c'' (lookup_of_mem hn hmem)
  | none =>
    rw [get_conversation_eq_of_cleanup_none hl] at h''
    rcases lookup_append_cases h'' with h1 | ⟨h2, h3⟩
    · have hmem := (cleanup_conversations_sublist m now).subset (lookup_mem h1)
      exact hP c'' (lookup_of_mem hn hmem)
    · right
      by_cases he : sid' = sid
      · have hfc : freshConversation sid' fromN toN now = c'' := by
          simp only [lookup, if_pos he] at h3
          exact Option.some.inj h3
        rw [← hfc]
        exact ⟨rfl, rfl, rfl⟩
      · exfalso
        simp [lookup, he] at h3

theorem gc_snd_keysNodup {m : ConversationManager} {now : Nat}
    {sid' : String} {fromN toN : Option String}
    (hn : keysNodup m.conversations) :
    keysNodup (m.get_conversation now sid' fromN toN).2.conversations := by
  cases hl : lookup (m.cleanup_old_conversations now).conversations sid' with
  | some c₂ =>
    rw [get_conversation_eq_of_cleanup_some hl]
    exact cleanup_keysNodup hn
  | none =>
    rw [get_conversation_eq_of_cleanup_none hl]
    exact keysNodup_append_single (cleanup_keysNodup hn) hl

theorem searchLoopSt_snd_invariant (now : Nat) (query : String) (limit : Int)
    (sid : String) :
    ∀ (entries : List (String × Conversation)) (count : Nat)
      (m : ConversationManager), keysNodup m.conversations →
      InactiveOrFresh m.conversations sid →
      keysNodup (searchLoopSt now query limit entries count m).2.conversations ∧
      InactiveOrFresh
        (searchLoopSt now query limit entries count m).2.conversations sid := by
  intro entries
  induction entries with
  | nil => intro count m hn hP; exact ⟨hn, hP⟩
  | cons e rest ih =>
    intro count m hn hP
    simp only [searchLoopSt]
    cases hf : e.2.messages.find? (fun msg => containsCI query msg.content) with
    | some msg =>
      simp only
      have hn' : keysNodup
          (m.get_conversation_stats now e.2.call_sid).2.conversations := by
        rw [get_conversation_stats_snd]
        exact gc_snd_keysNodup hn
      have hP' : InactiveOrFresh
          (m.get_conversation_stats now e.2.call_sid).2.conversations sid := by
        rw [get_conversation_stats_snd]
        exact gc_snd_inactiveOrFresh hn hP
      by_cases hle : limit ≤ ((count : Int) + 1)
      · rw [if_pos hle]
        exact ⟨hn', hP'⟩
      · rw [if_neg hle]
        exact ih (count + 1) _ hn' hP'
    | none =>
      simp only
      by_cases hle : limit ≤ (count : Int)
      · rw [if_pos hle]
        exact ⟨hn, hP⟩
      · rw [if_neg hle]
        exact ih count m hn hP

theorem getAllLoop_snd_invariant (now : Nat) (sid : String) :
    ∀ (entries : List (String × Conversation)) (m : ConversationManager),
      keysNodup m.conversations → InactiveOrFresh m.conversations sid →
      keysNodup (getAllLoop now entries m).2.conversations ∧
      InactiveOrFresh (getAllLoop now entries m).2.conversations sid := by
  intro entries
  induction entries with
  | nil => intro m hn hP; exact ⟨hn, hP⟩
  | cons e rest ih =>
    intro m hn hP
    simp only [getAllLoop]
    have hn' : keysNodup
        (m.get_conversation_stats now e.2.call_sid).2.conversations := by
      rw [get_conversation_stats_snd]
      exact gc_snd_keysNodup hn
    have hP' : InactiveOrFresh
        (m.get_conversation_stats now e.2.call_sid).2.conversations sid := by
      rw [get_conversation_stats_snd]
      exact gc_snd_inactiveOrFresh hn hP
    exact ih _ hn' hP'

theorem gc_snd_inactive {m : ConversationManager} {now : Nat} {sid' : String}
    {fromN toN : Option String} {sid : String} {c c' : Conversation}
    (hn : keysNodup m.conversations)
    (h : lookup m.conversations sid = some c) (hin : c.is_active = false)
    (h' : lookup (m.get_conversation now sid' fromN toN).2.conversations sid =
      some c') :
    c'.is_active = false ∨
      (c'.metadata.end_time = none ∧ c'.metadata.duration = none ∧
       c'.messages.length ≤ 1) := by
  cases hl : lookup (m.cleanup_old_conversations now).conversations sid' with
  | some c₂ =>
    rw [get_conversation_eq_of_cleanup_some hl] at h'
    left
    rw [lookup_sublist_some hn (cleanup_conversations_sublist m now) h h']
    exact hin
  | none =>
    rw [get_conversation_eq_of_cleanup_none hl] at h'
    rcases lookup_append_cases h' with h1 | ⟨h2, h3⟩
    · left
      rw [lookup_sublist_some hn (cleanup_conversations_sublist m now) h h1]
      exact hin
    · right
      by_cases he : sid' = sid
      · have hfc : freshConversation sid' fromN toN now = c' := by
          simp only [lookup, if_pos he] at h3
          exact Option.some.inj h3
        rw [← hfc]
        exact ⟨rfl, rfl, by simp [freshConversation]⟩
      · exfalso
        simp [lookup, he] at h3

theorem add_snd_inactive {m : ConversationManager} {now : Nat}
    {sid' role content : String} {md : Option (List (String × String))}
    {sid : String} {c c' : Conversation} (hn : keysNodup m.conversations)
    (h : lookup m.conversations sid = some c) (hin : c.is_active = false)
    (h' : lookup (m.add_message now sid' role content md).2.conversations sid =
      some c') :
    c'.is_active = false ∨
      (c'.metadata.end_time = none ∧ c'.metadata.duration = none ∧
       c'.messages.length ≤ 1) := by
  simp only [ConversationManager.add_message] at h'
  by_cases he : sid = sid'
  · subst he
    cases hl : lookup (m.cleanup_old_conversations now).conversations sid with
    | some c₂ =>
      rw [get_conversation_eq_of_cleanup_some hl] at h'
      rw [lookup_updateEntry_self, hl] at h'
      simp only [Option.map_some'] at h'
      have hc2 : c₂ = c :=
        lookup_sublist_some hn (cleanup_conversations_sublist m now) h hl
      left
      have hcc : c' = appendedConversation c₂ now role content md :=
        (Option.some.inj h').symm
      rw [hcc, appendedConversation_is_active, hc2]
      exact hin
    | none =>
      rw [get_conversation_eq_of_cleanup_none hl] at h'
      rw [lookup_updateEntry_self,
        lookup_append_single (freshConversation sid none none now) hl] at h'
      simp only [Option.map_some'] at h'
      right
      have hcc : c' = appendedConversation (freshConversation sid none none now)
          now role content md := (Option.some.inj h').symm
      rw [hcc]
      exact ⟨rfl, rfl, by simp [appendedConversation, freshConversation]⟩
  · rw [lookup_updateEntry_other he] at h'
    exact gc_snd_inactive hn h hin h'

theorem end_snd_inactive {m : ConversationManager} {now : Nat} {sid' : String}
    {sid : String} {c c' : Conversation} (hn : keysNodup m.conversations)
    (h : lookup m.conversations sid = some c) (hin : c.is_active = false)
    (h' : lookup (m.end_conversation now sid').2.conversations sid = some c') :
    c'.is_active = false := by
  simp only [ConversationManager.end_conversation] at h'
  cases hl : lookup m.conversations sid' with
  | some c₂ =>
    rw [hl] at h'
    simp only at h'
    by_cases he : sid = sid'
    · subst he
      rw [lookup_updateEntry_self, hl] at h'
      simp only [Option.map_some'] at h'
      have hcc := (Option.some.inj h').symm
      rw [hcc]
    · rw [lookup_updateEntry_other he, h] at h'
      have hcc := (Option.some.inj h').symm
      rw [hcc]
      exact hin
  | none =>
    rw [hl] at h'
    simp only at h'
    rw [h] at h'
    have hcc := (Option.some.inj h').symm
    rw [hcc]
    exact hin

/-- Claim C5 (amended): no single store operation ever turns a stored
conversation from inactive back to active in place.  When a call_sid that
held an inactive conversation shows an active one after an operation, the
active record is a brand-new conversation created by get_conversation
after the eviction pass removed the old one: its metadata carries no
end_time and no duration, and it holds at most the one message added by
that same operation. -/
theorem claim_C5_amended {m m' : ConversationManager} (hstep : Step m m')
    (hn : keysNodup m.conversations) {sid : String} {c c' : Conversation}
    (h : lookup m.conversations sid = some c) (hin : c.is_active = false)
    (h' : lookup m'.conversations sid = some c') :
    c'.is_active = false ∨
      (c'.metadata.end_time = none ∧ c'.metadata.duration = none ∧
       c'.messages.length ≤ 1) := by
  cases hstep with
  | get_conv now sid' fromN toN => exact gc_snd_inactive hn h hin h'
  | add_msg now sid' role content md => exact add_snd_inactive hn h hin h'
  | get_hist now sid' limit =>
    simp only [ConversationManager.get_history] at h'
    exact gc_snd_inactive hn h hin h'
  | end_conv now sid' => exact Or.inl (end_snd_inactive hn h hin h')
  | get_stats now sid' =>
    simp only [ConversationManager.get_conversation_stats] at h'
    exact gc_snd_inactive hn h hin h'
  | export_conv now sid' =>
    simp only [ConversationManager.export_conversation] at h'
    exact gc_snd_inactive hn h hin h'
  | get_all now limit =>
    simp only [ConversationManager.get_all_conversations] at h'
    have hP := InactiveOrFresh_of_inactive h hin
    rcases (getAllLoop_snd_invariant now sid _ m hn hP).2 c' h' with
      hL | ⟨h1, h2, h3⟩
    · exact Or.inl hL
    · exact Or.inr ⟨h1, h2, by rw [h3]; simp⟩
  | search now query limit =>
    simp only [ConversationManager.search_conversations] at h'
    have hP := InactiveOrFresh_of_inactive h hin
    rcases (searchLoopSt_snd_invariant now query limit sid m.conversations
        0 m hn hP).2 c' h' with hL | ⟨h1, h2, h3⟩
    · exact Or.inl hL
    · exact Or.inr ⟨h1, h2, by rw [h3]; simp⟩
  | sweep now =>
    left
    rw [lookup_sublist_some hn (cleanup_conversations_sublist m now) h h']
    exact hin

/-- Counterexample to claim C5 as stated: after ending conversation x its
stored is_active is false, but a later get_conversation call (the
get_or_create operation) on the same call_sid observes is_active true
again, because the eviction pass evicted the ended conversation and
get_conversation re-created a fresh active one under the same call_sid. -/
theorem claim_C5_counterexample :
    (lookup mgrC5b.conversations "x").map Conversation.is_active =
      some false ∧
    (lookup mgrC5c.conversations "x").map Conversation.is_active =
      some true := by
  decide

/-- Closed instance of the amended claim C5: the end_conversation step on
the already-inactive x satisfies the disjunction (the stored conversation
stays inactive). -/
theorem claim_C5_witness :
    convC5w2.is_active = false ∨
      (convC5w2.metadata.end_time = none ∧
       convC5w2.metadata.duration = none ∧
       convC5w2.messages.length ≤ 1) :=
  @claim_C5_amended mgrC5w (mgrC5w.end_conversation 9 "x").2
    (Step.end_conv mgrC5w 9 "x") (by decide) "x" convC5w convC5w2
    (by decide) rfl (by decide)

end Chatbot
